import Mathlib

set_option linter.unusedVariables false

/-!
Shallow embedding of the schedule primitives in
src/tir/schedule/primitive/cache_read_write.cc (cache_read, cache_write,
reindex). The IR node model is embedded structurally; object identity
(pointer comparison, same_as) is modelled by integer identity fields on
buffers, variables, blocks and loops. External collaborators that live
outside this file's source (interval analysis, WithScope, FullRegion) are
modelled from the spec and marked as such in their doc comments.
-/

/-- A TIR variable, identified (as in same_as comparisons) by its id. -/
structure Var where
  id : Nat
deriving DecidableEq, Repr

mutual

/-- Expressions: variables, integer immediates, addition, buffer loads.
Loads reference the accessed buffer by its identity, since a buffer
descriptor itself contains shape expressions. -/
inductive PrimExpr where
  | var (v : Var)
  | int (n : Int)
  | add (a b : PrimExpr)
  | load (bufId : Nat) (indices : ExprList)
deriving Repr

/-- List of expressions (a dedicated type so that mutual recursion over
load indices stays structural). -/
inductive ExprList where
  | nil
  | cons (e : PrimExpr) (es : ExprList)
deriving Repr

end

def ExprList.ofList : List PrimExpr → ExprList
  | [] => .nil
  | e :: es => .cons e (ExprList.ofList es)

def ExprList.toList : ExprList → List PrimExpr
  | .nil => []
  | .cons e es => e :: ExprList.toList es

/-- A buffer descriptor: identity handle, name, shape, backing storage
variable, storage-scope tag. -/
structure Buffer where
  id : Nat
  name : String
  shape : List PrimExpr
  data : Var
  scope : String
deriving Repr

/-- A range with minimum and extent, as in tir::Range. -/
structure Range where
  min : PrimExpr
  extent : PrimExpr
deriving Repr

/-- Range::FromMinExtent. -/
def Range.fromMinExtent (m e : PrimExpr) : Range := ⟨m, e⟩

abbrev Region := List Range

/-- A buffer together with an accessed region. -/
structure BufferRegion where
  buffer : Buffer
  region : Region
deriving Repr

/-- BufferRegion::FromPoint builds unit cells (extent one) at each index. -/
def unitCells (idx : List PrimExpr) : Region :=
  idx.map (fun e => ⟨e, .int 1⟩)

/-- An iteration variable of a block with its domain (iter type is always
kDataPar in this file and is omitted). -/
structure IterVar where
  dom : Range
  var : Var
deriving Repr

mutual

/-- Statements of the embedded IR subset: buffer stores, sequences,
serial loops, block realizes. Loops carry an identity (fid) mirroring
pointer identity of ForNode objects. -/
inductive Stmt where
  | bufferStore (buffer : Buffer) (value : PrimExpr) (indices : List PrimExpr)
  | seq (stmts : StmtList)
  | forLoop (fid : Nat) (loopVar : Var) (min extent : PrimExpr) (body : Stmt)
  | blockRealize (values : List PrimExpr) (predicate : PrimExpr) (block : Blk)
deriving Repr

inductive StmtList where
  | nil
  | cons (s : Stmt) (ss : StmtList)
deriving Repr

/-- A block: identity (bid, mirroring pointer identity), iteration
variables, declared read/write/match-buffer regions, name hint, body,
allocated buffers. The init statement and annotations are always absent
in the statements this engine builds and touches, and are omitted. -/
inductive Blk where
  | mk (bid : Nat) (iterVars : List IterVar)
      (reads writes matchBuffers : List BufferRegion)
      (nameHint : String) (body : Stmt) (allocBuffers : List Buffer)
deriving Repr

end

def Blk.bid : Blk → Nat
  | .mk b _ _ _ _ _ _ _ => b

def Blk.iterVars : Blk → List IterVar
  | .mk _ i _ _ _ _ _ _ => i

def Blk.reads : Blk → List BufferRegion
  | .mk _ _ r _ _ _ _ _ => r

def Blk.writes : Blk → List BufferRegion
  | .mk _ _ _ w _ _ _ _ => w

def Blk.matchBuffers : Blk → List BufferRegion
  | .mk _ _ _ _ m _ _ _ => m

def Blk.nameHint : Blk → String
  | .mk _ _ _ _ _ n _ _ => n

def Blk.body : Blk → Stmt
  | .mk _ _ _ _ _ _ b _ => b

def Blk.allocBuffers : Blk → List Buffer
  | .mk _ _ _ _ _ _ _ a => a

def StmtList.ofList : List Stmt → StmtList
  | [] => .nil
  | s :: ss => .cons s (StmtList.ofList ss)

def StmtList.lengthOf : StmtList → Nat
  | .nil => 0
  | .cons _ ss => StmtList.lengthOf ss + 1

/-- Insert a statement at a given position of a sequence
(SeqStmt::insert); positions past the end append at the end. -/
def StmtList.insertAt : Nat → Stmt → StmtList → StmtList
  | 0, s, ss => .cons s ss
  | _ + 1, s, .nil => .cons s .nil
  | n + 1, s, .cons t ts => .cons t (StmtList.insertAt n s ts)

def StmtList.lastOf? : StmtList → Option Stmt
  | .nil => none
  | .cons s .nil => some s
  | .cons _ (.cons t ts) => StmtList.lastOf? (.cons t ts)

/-- const_true() used as the realize predicate. -/
def trueExpr : PrimExpr := .int 1

/-- A stable reference to a tree position: either a block or a loop,
identified by the node's identity. Mirrors StmtSRef as used for the
insertion location (loc_sref). -/
inductive SRefId where
  | blk (i : Nat)
  | loop (i : Nat)
deriving DecidableEq, Repr

/-- The auxiliary info used for the insertion point and content of the
cache stage (CacheStageInfo). The block_reuse side table required by the
external Replace primitive carries no information any claim depends on
and is omitted. -/
structure CacheStageInfo where
  read_buffer : Buffer
  write_buffer : Buffer
  alloc : Buffer
  loc_sref : Option SRefId
  loc_pos : Option Nat
  cache_stage : Stmt
  consumer_blocks : List Nat

/-- Return the buffer region related with the buffer
(GetBufferRegionFromBuffer); the source asserts at most one match, so the
first match is the unique one. -/
def GetBufferRegionFromBuffer (buffer_regions : List BufferRegion)
    (buffer : Buffer) : Option BufferRegion :=
  buffer_regions.find? (fun r => r.buffer.id == buffer.id)

/-- Insert the cache stage into the specific position (InsertCacheStage):
sequences get an in-place insertion; a single statement is wrapped into a
two-element sequence, before it for position 0 and after it otherwise
(the source asserts the position is 1 in that case). -/
def InsertCacheStage (stmt : Stmt) (pos : Nat) (stage : Stmt) : Stmt :=
  match stmt with
  | .seq ss => .seq (StmtList.insertAt pos stage ss)
  | s => if pos = 0 then .seq (.cons stage (.cons s .nil)) else .seq (.cons s (.cons stage .nil))

/-! ### MakeCacheStage -/

/-- The realize binding values of the cache stage: per cache-region
dimension, that dimension's minimum plus the corresponding fresh loop
variable (ids counted from k). -/
def cacheIterValuesAux : Region → Nat → List PrimExpr
  | [], _ => []
  | r :: rest, k => .add r.min (.var ⟨k⟩) :: cacheIterValuesAux rest (k + 1)

/-- The block variables of the cache stage: one per buffer-shape
dimension, with domain from zero to that dimension (ids counted from k). -/
def cacheBlockVarsAux : List PrimExpr → Nat → List IterVar
  | [], _ => []
  | dim :: rest, k => ⟨⟨.int 0, dim⟩, ⟨k⟩⟩ :: cacheBlockVarsAux rest (k + 1)

/-- Build the surrounding serial loop nest of the cache stage, outermost
first; every loop starts at zero and runs for the region dimension's
extent. Loop variable ids are counted from k, loop identities from f. -/
def buildCacheLoops : Region → Nat → Nat → Stmt → Stmt
  | [], _, _, body => body
  | r :: rest, k, f, body =>
      .forLoop f ⟨k⟩ (.int 0) r.extent (buildCacheLoops rest (k + 1) (f + 1) body)

/-- The accessing indices of the cache stage: the block variables as
expressions. -/
def cacheAccessIndices (shape : List PrimExpr) (k : Nat) : List PrimExpr :=
  (cacheBlockVarsAux shape k).map (fun iv => PrimExpr.var iv.var)

/-- Create a loop nest that represents cache copy (MakeCacheStage): a
single block copying read_buffer to write_buffer elementwise, with point
read/write regions, wrapped in one loop per cache-region dimension.
Fresh object identities are drawn from fresh (variables), newBid (the
block) and forBase (the loops). Returns the block and the loop nest (the
cache_stage stored into the info by the source). -/
def MakeCacheStage (cache_region : BufferRegion) (info : CacheStageInfo)
    (storage_scope : String) (fresh newBid forBase : Nat) : Blk × Stmt :=
  let bvars := cacheBlockVarsAux cache_region.buffer.shape (fresh + cache_region.region.length)
  let idx := cacheAccessIndices cache_region.buffer.shape (fresh + cache_region.region.length)
  let block : Blk := .mk newBid bvars
      [⟨info.read_buffer, unitCells idx⟩]
      [⟨info.write_buffer, unitCells idx⟩]
      []
      (cache_region.buffer.name ++ "_" ++ storage_scope)
      (.bufferStore info.write_buffer
        (.load info.read_buffer.id (ExprList.ofList idx)) idx)
      []
  let realize := Stmt.blockRealize (cacheIterValuesAux cache_region.region fresh) trueExpr block
  (block, buildCacheLoops cache_region.region fresh forBase realize)

/-! ### Observers used to state structural properties -/

/-- One peeled loop of a loop nest: identity, variable, minimum, extent. -/
structure LoopSpec where
  fid : Nat
  lvar : Var
  lmin : PrimExpr
  lextent : PrimExpr
deriving Repr

/-- Peel the outer chain of loops off a statement. -/
def peelLoops : Stmt → List LoopSpec × Stmt
  | .forLoop f v mn ex body =>
      let r := peelLoops body
      (⟨f, v, mn, ex⟩ :: r.1, r.2)
  | s => ([], s)

/-- The loop specs buildCacheLoops generates for a region. -/
def cacheLoopSpecs : Region → Nat → Nat → List LoopSpec
  | [], _, _ => []
  | r :: rest, k, f => ⟨f, ⟨k⟩, .int 0, r.extent⟩ :: cacheLoopSpecs rest (k + 1) (f + 1)

/-- Last statement of a sequence, if the statement is one. -/
def seqLast? : Stmt → Option Stmt
  | .seq ss => ss.lastOf?
  | _ => none

/-- First statement of a sequence, if the statement is one. -/
def seqHead? : Stmt → Option Stmt
  | .seq (.cons s _) => some s
  | _ => none

/-! ### Errors and scope queries -/

/-- The schedule errors this engine reports. NotSingleWriteBlock carries
the offending writer blocks as its locations of interest; the region
cover error carries the scope root. -/
inductive ScheduleError where
  | notSingleWriteBlock (bufId : Nat) (writeBlocks : List Nat)
  | regionNotCovered (bid : Nat)
deriving DecidableEq, Repr

/-- LocationsOfInterest of an error (block identities). -/
def locationsOfInterest : ScheduleError → List Nat
  | .notSingleWriteBlock _ bs => bs
  | .regionNotCovered b => [b]

/-- The externally maintained scope state consumed by the engine: the
scope root block, the buffer_writers table (buffer identity to writer
block identities), the dependency edges (src, dst, is-RAW) and a summary
of whether every consumer's region_cover flag holds (read from the
external block_info table by CheckRegionCover). -/
structure ScopeInfo where
  scopeBlk : Blk
  bufferWriters : List (Nat × List Nat)
  deps : List (Nat × Nat × Bool)
  regionCoverOK : Bool

def writersLookup (scope : ScopeInfo) (bufId : Nat) : Option (List Nat) :=
  (scope.bufferWriters.find? (fun p => p.1 == bufId)).map (fun p => p.2)

/-- Get the only writer block of the input buffer in a given scope
(GetOnlyWriteBlock): none when no block writes it, the single writer when
there is one, and the NotSingleWriteBlock error carrying all writers when
there are two or more. -/
def GetOnlyWriteBlock (scope : ScopeInfo) (buffer : Buffer) :
    Except ScheduleError (Option Nat) :=
  match writersLookup scope buffer.id with
  | none => .ok none
  | some [] => .ok none
  | some [x] => .ok (some x)
  | some (x :: y :: rest) => .error (.notSingleWriteBlock buffer.id (x :: y :: rest))

/-! ### CacheLocDetector -/

namespace CacheLocDetector

/-- The constant inputs of one detection walk: the scope root's identity,
the writer block's identity, and the related blocks. -/
structure Ctx where
  scopeId : Nat
  blockId : Nat
  related : List Nat

/-- The detector's mutable state: the two visit flags, the located node
and the located intra-sequence index (-1 encoded as none). -/
structure St where
  visitedBlock : Bool
  visitedRelated : Bool
  locSref : Option SRefId
  locPos : Option Nat
deriving Repr

mutual

/-- The StmtVisitor dispatch: expressions carry no blocks, so stores are
inert; loops visit their body and then may pin themselves as the location
(VisitStmt_ ForNode); realizes dispatch to the block visitor. -/
def detStmt (ctx : Ctx) (st : St) : Stmt → St
  | .bufferStore _ _ _ => st
  | .seq ss => detSeq ctx st.visitedBlock { st with visitedBlock := false } 0 ss
  | .forLoop f _ _ _ body =>
      let st1 := detStmt ctx st body
      if st1.visitedBlock = true ∧ st1.visitedRelated = true
          ∧ st1.locSref = none ∧ st1.locPos ≠ none then
        { st1 with locSref := some (.loop f) }
      else st1
  | .blockRealize _ _ b => detBlk ctx st b

/-- VisitStmt_ SeqStmtNode: scan children in order; the moment both flags
hold the insertion offset is the current child's index; if a related
block was met first, stop and restore the saved visited flag. -/
def detSeq (ctx : Ctx) (prev : Bool) (st : St) (i : Nat) : StmtList → St
  | .nil => st
  | .cons s rest =>
      if st.locPos ≠ none then st
      else
        let st1 := detStmt ctx st s
        if st1.visitedBlock = true ∧ st1.visitedRelated = true ∧ st1.locPos = none then
          { st1 with locPos := some i }
        else if st1.visitedRelated = true then
          { st1 with visitedBlock := st1.visitedBlock || prev }
        else detSeq ctx prev st1 (i + 1) rest

/-- VisitStmt_ BlockNode: recurse only through the scope root (where the
default location falls back to the root itself, position 0 for an input
buffer); mark the writer block or a related block and do not recurse into
other blocks. -/
def detBlk (ctx : Ctx) (st : St) : Blk → St
  | .mk bid _ _ _ _ _ body _ =>
      if bid = ctx.scopeId then
        let st1 := detStmt ctx st body
        if st1.visitedRelated = true ∧ st1.locSref = none then
          let st2 := { st1 with locSref := some (SRefId.blk bid) }
          if st2.visitedBlock = false ∧ st2.locPos = none then
            { st2 with locPos := some 0 }
          else st2
        else st1
      else if bid = ctx.blockId then { st with visitedBlock := true }
      else if ctx.related.contains bid then { st with visitedRelated := true }
      else st

end

/-- The related blocks of one detection: the given consumers when
supplied, otherwise the RAW dependents of the writer block. -/
def relatedOf (deps : List (Nat × Nat × Bool)) (blockId : Nat)
    (consumers : List Nat) : List Nat :=
  if consumers.isEmpty then
    (deps.filter (fun d => d.1 == blockId && d.2.2 == true)).map (fun d => d.2.1)
  else consumers

/-- CacheLocDetector::Detect: run the walk when related blocks exist;
otherwise default to the scope root with the stage appended at the end of
its body (the body's size when it is a sequence, and 1 otherwise). -/
def Detect (scopeBlk : Blk) (deps : List (Nat × Nat × Bool))
    (blockId : Nat) (consumers : List Nat) : Option SRefId × Option Nat :=
  let related := relatedOf deps blockId consumers
  if related.isEmpty then
    (some (.blk scopeBlk.bid),
     some (match scopeBlk.body with
           | .seq ss => ss.lengthOf
           | _ => 1))
  else
    let st := detBlk ⟨scopeBlk.bid, blockId, related⟩ ⟨false, false, none, none⟩ scopeBlk
    (st.locSref, st.locPos)

end CacheLocDetector

/-! ### Region relaxation (RelaxBufferRegion)

RelaxBufferRegion substitutes the block's realize bindings into the
access region and then, per dimension, covers the interval returned by
the external analysis within the buffer's extent. The external parts
(AnalyzeRegionUpperBound and the interval cover) are not part of this
source file, so they are modelled from the spec below: accesses are
affine forms over the enclosing loop variables, the oracle returns a
bounding interval per dimension where each loop of the sref-tree interval
[low, high) is relaxed over its full range and every other variable keeps
its (in-range) value, and the result is clipped to [0, buffer_extent)
per dimension. -/

namespace RelaxModel

/-- A closed integer interval. -/
structure Ival where
  lo : Int
  hi : Int
deriving DecidableEq, Repr

def memI (x : Int) (I : Ival) : Prop := I.lo ≤ x ∧ x ≤ I.hi

instance (x : Int) (I : Ival) : Decidable (memI x I) :=
  inferInstanceAs (Decidable (I.lo ≤ x ∧ x ≤ I.hi))

/-- Interval containment: A is contained in B. -/
def subI (A B : Ival) : Prop := B.lo ≤ A.lo ∧ A.hi ≤ B.hi

instance (A B : Ival) : Decidable (subI A B) :=
  inferInstanceAs (Decidable (B.lo ≤ A.lo ∧ A.hi ≤ B.hi))

def addI (A B : Ival) : Ival := ⟨A.lo + B.lo, A.hi + B.hi⟩

def scaleI (c : Int) (A : Ival) : Ival :=
  if 0 ≤ c then ⟨c * A.lo, c * A.hi⟩ else ⟨c * A.hi, c * A.lo⟩

def pointI (x : Int) : Ival := ⟨x, x⟩

/-- Modelled from the spec: the conservative bounding interval of an
affine access expression (coefficient and loop-position pairs plus a
constant) when each position's variable ranges over the domain dom
assigns to it. -/
def evalBound (coeffs : List (Int × Nat)) (c : Int) (dom : Nat → Ival) : Ival :=
  coeffs.foldr (fun p acc => addI (scaleI p.1 (dom p.2)) acc) (pointI c)

/-- Modelled from the spec: the per-variable domain induced by the
sref-tree interval [low, high): loops at positions inside the interval
are relaxed to their full range, every other variable keeps its
environment value. -/
def relaxDom (loops : List Ival) (low high : Nat) (env : Nat → Int) (p : Nat) : Ival :=
  if low ≤ p ∧ p < high then loops.getD p (pointI 0) else pointI (env p)

/-- Modelled from the spec: cover the analyzed interval within the
buffer extent, clipping to [0, extent) in this dimension. -/
def coverRange (I : Ival) (extent : Int) : Ival :=
  ⟨max I.lo 0, min I.hi (extent - 1)⟩

/-- RelaxBufferRegion over the spec-modelled analysis: one affine access
form plus buffer extent per dimension, relaxed over the loops selected by
[low, high) and clipped to the buffer's extent per dimension. -/
def RelaxBufferRegion (dims : List (List (Int × Nat) × Int)) (shape : List Int)
    (loops : List Ival) (low high : Nat) (env : Nat → Int) : List Ival :=
  (dims.zip shape).map
    (fun p => coverRange (evalBound p.1.1 p.1.2 (relaxDom loops low high env)) p.2)

end RelaxModel

/-! ### Rewriters -/

/-- ReplaceBuffer on declared regions: substitute the source buffer by
the target wherever a region's buffer is the source; the boolean mirrors
the same_as change check of the callers. -/
def ReplaceBufferC : List BufferRegion → Nat → Buffer → List BufferRegion × Bool
  | [], _, _ => ([], false)
  | r :: rest, srcId, tgt =>
      let p := ReplaceBufferC rest srcId tgt
      if r.buffer.id = srcId then (⟨tgt, r.region⟩ :: p.1, true)
      else (r :: p.1, p.2)

/-- The default statement-mutator visit of a range: mutate min and extent. -/
def mutRange (f : PrimExpr → PrimExpr) (r : Range) : Range := ⟨f r.min, f r.extent⟩

/-- The default statement-mutator visit of declared regions: mutate the
range expressions, leaving the buffer untouched. -/
def mutRegions (f : PrimExpr → PrimExpr) (rs : List BufferRegion) : List BufferRegion :=
  rs.map (fun br => ⟨br.buffer, br.region.map (mutRange f)⟩)

/-- The default statement-mutator visit of iteration variables: mutate
the domains. -/
def mutIterVars (f : PrimExpr → PrimExpr) (ivs : List IterVar) : List IterVar :=
  ivs.map (fun iv => ⟨mutRange f iv.dom, iv.var⟩)

namespace CacheReadRewriter

mutual

/-- Expression rewriting of CacheReadRewriter: loads from the read
buffer are retargeted to the new cache buffer when the current block
consumes the cache (the load's indices are then kept as-is); raw
occurrences of the read buffer's backing variable become the cache's. -/
def visitExpr (info : CacheStageInfo) (consumes : Bool) : PrimExpr → PrimExpr
  | .var v => if v = info.read_buffer.data then .var info.write_buffer.data else .var v
  | .int n => .int n
  | .add a b => .add (visitExpr info consumes a) (visitExpr info consumes b)
  | .load bufId idx =>
      if consumes = true ∧ bufId = info.read_buffer.id then .load info.write_buffer.id idx
      else .load bufId (visitExprList info consumes idx)

def visitExprList (info : CacheStageInfo) (consumes : Bool) : ExprList → ExprList
  | .nil => .nil
  | .cons e es => .cons (visitExpr info consumes e) (visitExprList info consumes es)

end

mutual

/-- Statement rewriting of CacheReadRewriter. The boolean threads the
mutator's current_block_consumes member, which is set on entering each
block and not restored. -/
def visitStmt (info : CacheStageInfo) (scopeId : Nat) (consumes : Bool) :
    Stmt → Stmt × Bool
  | .bufferStore buf val idx =>
      (.bufferStore buf (visitExpr info consumes val)
        (idx.map (visitExpr info consumes)), consumes)
  | .seq ss =>
      let p := visitStmtList info scopeId consumes ss
      (.seq p.1, p.2)
  | .forLoop f v mn ex body =>
      let p := visitStmt info scopeId consumes body
      let b2 := if info.loc_sref = some (.loop f) then
          InsertCacheStage p.1 (info.loc_pos.getD 0) info.cache_stage
        else p.1
      (.forLoop f v (visitExpr info consumes mn) (visitExpr info consumes ex) b2, p.2)
  | .blockRealize vals pred b =>
      let p := visitBlk info scopeId consumes b
      (.blockRealize (vals.map (visitExpr info consumes))
        (visitExpr info consumes pred) p.1, p.2)

def visitStmtList (info : CacheStageInfo) (scopeId : Nat) (consumes : Bool) :
    StmtList → StmtList × Bool
  | .nil => (.nil, consumes)
  | .cons s ss =>
      let p := visitStmt info scopeId consumes s
      let q := visitStmtList info scopeId p.2 ss
      (.cons p.1 q.1, q.2)

/-- Block rewriting of CacheReadRewriter: the block generating the read
buffer is returned untouched (its body is not visited); the scope root
gets the cache allocation and the stage spliced at the recorded location;
consumer blocks get their declared reads and match buffers retargeted. -/
def visitBlk (info : CacheStageInfo) (scopeId : Nat) (consumes : Bool) :
    Blk → Blk × Bool
  | .mk bid ivs rds wrs mbs name body allocs =>
      let is_consumer := info.consumer_blocks.isEmpty || info.consumer_blocks.contains bid
      if bid ≠ scopeId ∧ (GetBufferRegionFromBuffer wrs info.read_buffer).isSome then
        (.mk bid ivs rds wrs mbs name body allocs, is_consumer)
      else
        let ivs2 := mutIterVars (visitExpr info is_consumer) ivs
        let rds2 := mutRegions (visitExpr info is_consumer) rds
        let wrs2 := mutRegions (visitExpr info is_consumer) wrs
        let mbs2 := mutRegions (visitExpr info is_consumer) mbs
        let p := visitStmt info scopeId is_consumer body
        let body2 := if info.loc_sref = some (.blk bid) then
            InsertCacheStage p.1 (info.loc_pos.getD 0) info.cache_stage
          else p.1
        if bid = scopeId then
          (.mk bid ivs2 rds2 wrs2 mbs2 name body2 (allocs ++ [info.alloc]), p.2)
        else
          if is_consumer = true then
            let rr := ReplaceBufferC rds info.read_buffer.id info.write_buffer
            let mr := ReplaceBufferC mbs info.read_buffer.id info.write_buffer
            if rr.2 || mr.2 then
              (.mk bid ivs2 rr.1 wrs2 mr.1 name body2 allocs, p.2)
            else
              (.mk bid ivs2 rds2 wrs2 mbs2 name body2 allocs, p.2)
          else
            (.mk bid ivs2 rds2 wrs2 mbs2 name body2 allocs, p.2)

end

/-- CacheReadRewriter::Rewrite starting from the scope root block. -/
def Rewrite (info : CacheStageInfo) (scopeBlk : Blk) : Blk :=
  (visitBlk info scopeBlk.bid false scopeBlk).1

end CacheReadRewriter

namespace CacheWriteRewriter

mutual

/-- Expression rewriting of CacheWriteRewriter: loads from the written
buffer are retargeted to the cache buffer; raw occurrences of its
backing variable become the cache's. -/
def visitExpr (info : CacheStageInfo) : PrimExpr → PrimExpr
  | .var v => if v = info.write_buffer.data then .var info.read_buffer.data else .var v
  | .int n => .int n
  | .add a b => .add (visitExpr info a) (visitExpr info b)
  | .load bufId idx =>
      if bufId = info.write_buffer.id then .load info.read_buffer.id idx
      else .load bufId (visitExprList info idx)

def visitExprList (info : CacheStageInfo) : ExprList → ExprList
  | .nil => .nil
  | .cons e es => .cons (visitExpr info e) (visitExprList info es)

end

mutual

/-- Statement rewriting of CacheWriteRewriter. The boolean is the
under_writer_block_ flag, scoped to the subtree of each block. Stores to
the written buffer are retargeted to the cache buffer. -/
def visitStmt (info : CacheStageInfo) (scopeId writerId : Nat) (under : Bool) :
    Stmt → Stmt
  | .bufferStore buf val idx =>
      if buf.id = info.write_buffer.id then
        .bufferStore info.read_buffer (visitExpr info val) (idx.map (visitExpr info))
      else
        .bufferStore buf (visitExpr info val) (idx.map (visitExpr info))
  | .seq ss => .seq (visitStmtList info scopeId writerId under ss)
  | .forLoop f v mn ex body =>
      let b1 := visitStmt info scopeId writerId under body
      let b2 := if info.loc_sref = some (.loop f) then
          InsertCacheStage b1 (info.loc_pos.getD 0) info.cache_stage
        else b1
      .forLoop f v (visitExpr info mn) (visitExpr info ex) b2
  | .blockRealize vals pred b =>
      .blockRealize (vals.map (visitExpr info)) (visitExpr info pred)
        (visitBlk info scopeId writerId under b)

def visitStmtList (info : CacheStageInfo) (scopeId writerId : Nat) (under : Bool) :
    StmtList → StmtList
  | .nil => .nil
  | .cons s ss =>
      .cons (visitStmt info scopeId writerId under s)
        (visitStmtList info scopeId writerId under ss)

/-- Block rewriting of CacheWriteRewriter: only the writer block, the
scope root, and blocks under the writer are mutated; every other block is
returned unchanged without visiting its body. -/
def visitBlk (info : CacheStageInfo) (scopeId writerId : Nat) (under : Bool) :
    Blk → Blk
  | .mk bid ivs rds wrs mbs name body allocs =>
      if bid ≠ writerId ∧ bid ≠ scopeId ∧ under = false then
        .mk bid ivs rds wrs mbs name body allocs
      else
        let us := under || bid == writerId
        let ivs2 := mutIterVars (visitExpr info) ivs
        let rds2 := mutRegions (visitExpr info) rds
        let wrs2 := mutRegions (visitExpr info) wrs
        let mbs2 := mutRegions (visitExpr info) mbs
        let b1 := visitStmt info scopeId writerId us body
        let body2 := if info.loc_sref = some (.blk bid) then
            InsertCacheStage b1 (info.loc_pos.getD 0) info.cache_stage
          else b1
        if bid = scopeId then
          .mk bid ivs2 rds2 wrs2 mbs2 name body2 (allocs ++ [info.alloc])
        else
          let wr := ReplaceBufferC wrs info.write_buffer.id info.read_buffer
          let rr := ReplaceBufferC rds info.write_buffer.id info.read_buffer
          let mr := ReplaceBufferC mbs info.write_buffer.id info.read_buffer
          if wr.2 || rr.2 || mr.2 then
            .mk bid ivs2 rr.1 wr.1 mr.1 name body2 allocs
          else
            .mk bid ivs2 rds2 wrs2 mbs2 name body2 allocs

end

/-- CacheWriteRewriter::Rewrite starting from the scope root block. -/
def Rewrite (info : CacheStageInfo) (scopeBlk : Blk) (writerId : Nat) : Blk :=
  visitBlk info scopeBlk.bid writerId false scopeBlk

end CacheWriteRewriter

/-! ### Orchestration -/

/-- Modelled from the spec: WithScope (outside this source file) derives
the cache buffer with the same shape, a fresh identity and backing
variable, the target storage scope, and the scope-suffixed name. -/
def WithScope (buf : Buffer) (storage_scope : String) (freshId freshData : Nat) : Buffer :=
  ⟨freshId, buf.name ++ "." ++ storage_scope, buf.shape, ⟨freshData⟩, storage_scope⟩

/-- Modelled from the spec: BufferRegion::FullRegion (outside this
source file) covers every dimension from zero to its full extent. -/
def FullRegion (buf : Buffer) : BufferRegion :=
  ⟨buf, buf.shape.map (fun e => ⟨.int 0, e⟩)⟩

/-- CheckRegionCover: fail when some consumer's region_cover flag (an
external block_info entry, summarized into the scope state) is false. -/
def CheckRegionCover (scope : ScopeInfo) : Except ScheduleError Unit :=
  if scope.regionCoverOK then .ok () else .error (.regionNotCovered scope.scopeBlk.bid)

/-- Steps 1-4 of CacheRead: region-cover check, cache stage info
creation, writer lookup; with a writer, the detector and the relaxation
(the latter an external oracle over the writer and the detected site)
produce the cached region; with no writer the site is the scope root at
position 0 and the region is the scope's declared read region for the
buffer, or its full region. -/
def CacheReadPlan (scope : ScopeInfo) (read_buffer : Buffer) (storage_scope : String)
    (consumer_blocks : List Nat) (freshId freshData : Nat)
    (relaxOracle : Nat → Option SRefId → BufferRegion) :
    Except ScheduleError (CacheStageInfo × BufferRegion) :=
  match CheckRegionCover scope with
  | .error e => .error e
  | .ok _ =>
    let write_buffer := WithScope read_buffer storage_scope freshId freshData
    let info : CacheStageInfo :=
      ⟨read_buffer, write_buffer, write_buffer, none, none, .seq .nil, consumer_blocks⟩
    match GetOnlyWriteBlock scope read_buffer with
    | .error e => .error e
    | .ok (some w) =>
        let lp := CacheLocDetector.Detect scope.scopeBlk scope.deps w consumer_blocks
        .ok ({ info with loc_sref := lp.1, loc_pos := lp.2 }, relaxOracle w lp.1)
    | .ok none =>
        let region := match GetBufferRegionFromBuffer scope.scopeBlk.reads read_buffer with
          | some r => r
          | none => FullRegion read_buffer
        .ok ({ info with loc_sref := some (.blk scope.scopeBlk.bid), loc_pos := some 0 },
          region)

/-- CacheRead up to the rewritten scope subtree: plan, stage synthesis,
rewriting. An error means the external Replace commit is never reached,
so no mutation is committed. -/
def CacheReadExec (scope : ScopeInfo) (read_buffer : Buffer) (storage_scope : String)
    (consumer_blocks : List Nat) (freshId freshData fresh newBid forBase : Nat)
    (relaxOracle : Nat → Option SRefId → BufferRegion) :
    Except ScheduleError (Blk × Blk × CacheStageInfo) :=
  match CacheReadPlan scope read_buffer storage_scope consumer_blocks freshId freshData
      relaxOracle with
  | .error e => .error e
  | .ok (info, region) =>
      let ms := MakeCacheStage region info storage_scope fresh newBid forBase
      let info2 := { info with cache_stage := ms.2 }
      .ok (CacheReadRewriter.Rewrite info2 scope.scopeBlk, ms.1, info2)

/-- Steps 2-4 of CacheWrite: cache stage info creation, the only-writer
check (the source then asserts the writer is the invoking block), the
detector, and the external relaxation oracle. -/
def CacheWritePlan (scope : ScopeInfo) (blockId : Nat) (write_buffer : Buffer)
    (storage_scope : String) (freshId freshData : Nat)
    (relaxOracle : Nat → Option SRefId → BufferRegion) :
    Except ScheduleError (CacheStageInfo × BufferRegion) :=
  let read_buffer := WithScope write_buffer storage_scope freshId freshData
  let info : CacheStageInfo :=
    ⟨read_buffer, write_buffer, read_buffer, none, none, .seq .nil, []⟩
  match GetOnlyWriteBlock scope write_buffer with
  | .error e => .error e
  | .ok _ =>
      let lp := CacheLocDetector.Detect scope.scopeBlk scope.deps blockId []
      .ok ({ info with loc_sref := lp.1, loc_pos := lp.2 }, relaxOracle blockId lp.1)

/-- CacheWrite up to the rewritten scope subtree. An error means the
external Replace commit is never reached, so no mutation is committed. -/
def CacheWriteExec (scope : ScopeInfo) (blockId : Nat) (write_buffer : Buffer)
    (storage_scope : String) (freshId freshData fresh newBid forBase : Nat)
    (relaxOracle : Nat → Option SRefId → BufferRegion) :
    Except ScheduleError (Blk × Blk × CacheStageInfo) :=
  match CacheWritePlan scope blockId write_buffer storage_scope freshId freshData
      relaxOracle with
  | .error e => .error e
  | .ok (info, region) =>
      let ms := MakeCacheStage region info storage_scope fresh newBid forBase
      let info2 := { info with cache_stage := ms.2 }
      .ok (CacheWriteRewriter.Rewrite info2 scope.scopeBlk blockId, ms.1, info2)

/-! ### ReIndex -/

mutual

/-- Substitute variables by expressions (tir::Substitute). -/
def substE (m : List (Var × PrimExpr)) : PrimExpr → PrimExpr
  | .var v =>
      match m.find? (fun p => p.1 == v) with
      | some p => p.2
      | none => .var v
  | .int n => .int n
  | .add a b => .add (substE m a) (substE m b)
  | .load bufId idx => .load bufId (substL m idx)

def substL (m : List (Var × PrimExpr)) : ExprList → ExprList
  | .nil => .nil
  | .cons e es => .cons (substE m e) (substL m es)

end

mutual

/-- Collect every variable occurring in an expression (the PreOrderVisit
of ReIndex that builds the covered set). -/
def collectVarsE : PrimExpr → List Var
  | .var v => [v]
  | .int _ => []
  | .add a b => collectVarsE a ++ collectVarsE b
  | .load _ idx => collectVarsL idx

def collectVarsL : ExprList → List Var
  | .nil => []
  | .cons e es => collectVarsE e ++ collectVarsL es

end

/-- The covered set: the block iteration variables appearing in the
access indices being reindexed. -/
def coveredOf (indices : List PrimExpr) : List Var :=
  indices.foldr (fun e acc => collectVarsE e ++ acc) []

/-- Step 1 of MakeReIndexStage: walk the block iters; a covered iter gets
a fresh block iter with the same domain and a reindex index, a skipped
(uncovered) iter gets neither; the replacement map records a fresh
variable for every iter. Fresh variable ids count from k and advance only
on covered iters, as the source numbers them by new_block_iters.size().
Returns (new block iters, reindex indices, replacement map). -/
def reIndexIters (covered : List Var) :
    List IterVar → Nat → List IterVar × List PrimExpr × List (Var × PrimExpr)
  | [], _ => ([], [], [])
  | it :: rest, k =>
      if covered.contains it.var then
        let p := reIndexIters covered rest (k + 1)
        (⟨it.dom, ⟨k⟩⟩ :: p.1, .var ⟨k⟩ :: p.2.1, (it.var, .var ⟨k⟩) :: p.2.2)
      else
        let p := reIndexIters covered rest k
        (p.1, p.2.1, (it.var, .var ⟨k⟩) :: p.2.2)

/-- Step 4 of MakeReIndexStage: one loop per (non-skipped) new block
iter, outermost first, over that iter's domain; the realize bindings are
the loop variables themselves. Loop variable ids count from k, loop
identities from f. -/
def buildReIndexLoops : List IterVar → Nat → Nat → Stmt → Stmt
  | [], _, _, body => body
  | iv :: rest, k, f, body =>
      .forLoop f ⟨k⟩ iv.dom.min iv.dom.extent
        (buildReIndexLoops rest (k + 1) (f + 1) body)

/-- The realize binding values of the reindex stage: the loop variables. -/
def reIndexIterValues : List IterVar → Nat → List PrimExpr
  | [], _ => []
  | _ :: rest, k => .var ⟨k⟩ :: reIndexIterValues rest (k + 1)

/-- MakeReIndexStage: build the reindex copy block and its surrounding
loops. The target indices substitute the replacement map into the
original indices; a write-side reindex copies from the reindex buffer at
the reindex indices into the target indices, a read-side reindex swaps
the directions. Fresh identities: vbase (block variables), axbase (loop
variables), newBid (the block), forBase (the loops). -/
def MakeReIndexStage (block : Blk) (info : CacheStageInfo) (covered : List Var)
    (original_indices : List PrimExpr) (isWriteIndex : Bool)
    (vbase axbase newBid forBase : Nat) : Blk × Stmt :=
  let p := reIndexIters covered block.iterVars vbase
  let target_indices := original_indices.map (substE p.2.2)
  let src_indices := if isWriteIndex then p.2.1 else target_indices
  let dst_indices := if isWriteIndex then target_indices else p.2.1
  let new_block : Blk := .mk newBid p.1
      [⟨info.read_buffer, unitCells src_indices⟩]
      [⟨info.write_buffer, unitCells dst_indices⟩]
      []
      (info.write_buffer.name ++ "_reindex")
      (.bufferStore info.write_buffer
        (.load info.read_buffer.id (ExprList.ofList src_indices)) dst_indices)
      []
  let realize := Stmt.blockRealize (reIndexIterValues p.1 axbase) trueExpr new_block
  (new_block, buildReIndexLoops p.1 axbase forBase realize)

/-- CreateReindexBuffer: the reindex buffer keeps only the dimensions of
the covered block iters (each as min + extent), with a fresh identity,
fresh backing variable and the _reindex suffixes on name and variable;
strides are cleared. -/
def CreateReindexBuffer (buffer : Buffer) (block_iters : List IterVar)
    (covered : List Var) (freshId freshData : Nat) : Buffer :=
  ⟨freshId, buffer.name ++ "_reindex",
   (block_iters.filter (fun it => covered.contains it.var)).map
     (fun it => .add it.dom.min it.dom.extent),
   ⟨freshData⟩, buffer.scope⟩

/-- The loop specs buildReIndexLoops generates. -/
def reIndexLoopSpecs : List IterVar → Nat → Nat → List LoopSpec
  | [], _, _ => []
  | iv :: rest, k, f =>
      ⟨f, ⟨k⟩, iv.dom.min, iv.dom.extent⟩ :: reIndexLoopSpecs rest (k + 1) (f + 1)

/-- The extents of the outer loop chain of a statement. -/
def loopExtents (s : Stmt) : List PrimExpr :=
  (peelLoops s).1.map (fun l => l.lextent)

/-! ### Concrete instances used by witnesses and counterexamples -/

/-- A 16-element global input/intermediate buffer. -/
def bufA : Buffer := ⟨3, "A", [.int 16], ⟨30⟩, "global"⟩

/-- The cache buffer derived from bufA in scope local. -/
def bufALocal : Buffer := ⟨4, "A.local", [.int 16], ⟨31⟩, "local"⟩

/-- An unrelated output buffer. -/
def bufOut : Buffer := ⟨6, "OUT", [.int 16], ⟨32⟩, "global"⟩

/-- An empty scope root block. -/
def rootBlk0 : Blk := .mk 0 [] [] [] [] "root" (.seq .nil) []

/-- A scope in which no block writes bufA. -/
def scopeNoWriter : ScopeInfo := ⟨rootBlk0, [], [], true⟩

/-- A scope in which blocks 1 and 2 both write bufA. -/
def scopeTwoWriters : ScopeInfo := ⟨rootBlk0, [(3, [1, 2])], [], true⟩

/-- A cache_write plan: read side is the cache (bufALocal), write side
the original buffer (bufA); insertion after the writer at the root. -/
def infoCW : CacheStageInfo := ⟨bufALocal, bufA, bufALocal, some (.blk 0), some 1, .seq .nil, []⟩

/-- A cache_read plan: read side the original buffer, write side the
cache; insertion at the front of the root. -/
def infoCR : CacheStageInfo := ⟨bufA, bufALocal, bufALocal, some (.blk 0), some 0, .seq .nil, []⟩

/-- A producer block writing bufA. -/
def producerBlk : Blk :=
  .mk 2 [] [] [⟨bufA, [⟨.int 0, .int 16⟩]⟩] [] "producer"
    (.bufferStore bufA (.int 1) [.int 0]) []

/-- The writer block C of the cache_write scenario, storing to bufA. -/
def writerBlk : Blk :=
  .mk 1 [] [] [⟨bufA, [⟨.var ⟨2⟩, .int 1⟩]⟩] [] "C"
    (.bufferStore bufA (.var ⟨2⟩) [.var ⟨2⟩]) []

/-- The consumer block D outside the writer subtree, loading bufA. -/
def outsideBlk : Blk :=
  .mk 2 [] [⟨bufA, [⟨.var ⟨5⟩, .int 1⟩]⟩] [⟨bufOut, [⟨.var ⟨5⟩, .int 1⟩]⟩] [] "D"
    (.bufferStore bufOut (.load 3 (.cons (.var ⟨5⟩) .nil)) [.var ⟨5⟩]) []

/-- A block with iters i (var 1, domain [0,4)) and j (var 2, domain
[0,4)) writing bufA at index [i] only, so j is uncovered. -/
def reIdxBlk : Blk :=
  .mk 9 [⟨⟨.int 0, .int 4⟩, ⟨1⟩⟩, ⟨⟨.int 0, .int 4⟩, ⟨2⟩⟩] []
    [⟨bufA, [⟨.var ⟨1⟩, .int 1⟩]⟩] [] "W"
    (.bufferStore bufA (.int 0) [.var ⟨1⟩]) []

/-- The reindex buffer for reIdxBlk's write access [i]. -/
def bufAReindex : Buffer :=
  CreateReindexBuffer bufA reIdxBlk.iterVars (coveredOf [.var ⟨1⟩]) 7 33

/-- The reindex plan for a write-side reindex of reIdxBlk. -/
def infoRI : CacheStageInfo :=
  ⟨bufAReindex, bufA, bufAReindex, none, some 1, .seq .nil, []⟩

theorem peelLoops_buildCacheLoops (rs : Region) (k f : Nat) (body : Stmt)
    (h : ∀ a b c d e, body ≠ .forLoop a b c d e) :
    peelLoops (buildCacheLoops rs k f body) = (cacheLoopSpecs rs k f, body) := by
  induction rs generalizing k f with
  | nil =>
    cases body with
    | forLoop a b c d e => exact absurd rfl (h a b c d e)
    | bufferStore _ _ _ => rfl
    | seq _ => rfl
    | blockRealize _ _ _ => rfl
  | cons r rest ih =>
    simp [buildCacheLoops, peelLoops, cacheLoopSpecs, ih (k + 1) (f + 1)]

theorem cacheLoopSpecs_length (rs : Region) (k f : Nat) :
    (cacheLoopSpecs rs k f).length = rs.length := by
  induction rs generalizing k f with
  | nil => rfl
  | cons r rest ih => simp [cacheLoopSpecs, ih]

theorem cacheIterValuesAux_length (rs : Region) (k : Nat) :
    (cacheIterValuesAux rs k).length = rs.length := by
  induction rs generalizing k with
  | nil => rfl
  | cons r rest ih => simp [cacheIterValuesAux, ih]

theorem cacheBlockVarsAux_length (ds : List PrimExpr) (k : Nat) :
    (cacheBlockVarsAux ds k).length = ds.length := by
  induction ds generalizing k with
  | nil => rfl
  | cons d rest ih => simp [cacheBlockVarsAux, ih]

/-- C1. Every cache stage synthesized by MakeCacheStage is an elementwise
identity copy: its body is a single store write_buffer[idx] =
read_buffer[idx] with the same index list on both sides, its declared
read and write regions are the unit cells at that same index list, and
the surrounding loop nest has exactly one loop per dimension of the cache
region, whose realize binds each dimension as that dimension's minimum
plus exactly its own (distinct, fresh) loop variable. -/
theorem makeCacheStage_identity_copy (cache_region : BufferRegion)
    (info : CacheStageInfo) (storage_scope : String) (fresh newBid forBase : Nat) :
    ∃ idx : List PrimExpr,
      (MakeCacheStage cache_region info storage_scope fresh newBid forBase).1.body
        = .bufferStore info.write_buffer
            (.load info.read_buffer.id (ExprList.ofList idx)) idx
      ∧ (MakeCacheStage cache_region info storage_scope fresh newBid forBase).1.reads
        = [⟨info.read_buffer, unitCells idx⟩]
      ∧ (MakeCacheStage cache_region info storage_scope fresh newBid forBase).1.writes
        = [⟨info.write_buffer, unitCells idx⟩]
      ∧ idx.length = cache_region.buffer.shape.length
      ∧ peelLoops (MakeCacheStage cache_region info storage_scope fresh newBid forBase).2
        = (cacheLoopSpecs cache_region.region fresh forBase,
           .blockRealize (cacheIterValuesAux cache_region.region fresh) trueExpr
             (MakeCacheStage cache_region info storage_scope fresh newBid forBase).1)
      ∧ (cacheLoopSpecs cache_region.region fresh forBase).length
        = cache_region.region.length
      ∧ (cacheIterValuesAux cache_region.region fresh).length
        = cache_region.region.length := by
  refine ⟨cacheAccessIndices cache_region.buffer.shape
      (fresh + cache_region.region.length),
    rfl, rfl, rfl, ?_, ?_, cacheLoopSpecs_length _ _ _, cacheIterValuesAux_length _ _⟩
  · simp [cacheAccessIndices, cacheBlockVarsAux_length]
  · exact peelLoops_buildCacheLoops _ _ _ _ (fun a b c d e h => by simp at h)

theorem insertAt_ne_nil (n : Nat) (s : Stmt) (ss : StmtList) :
    StmtList.insertAt n s ss ≠ .nil := by
  match n, ss with
  | 0, ss => simp [StmtList.insertAt]
  | n + 1, .nil => simp [StmtList.insertAt]
  | n + 1, .cons t ts => simp [StmtList.insertAt]

theorem lastOf_insertAt_length : ∀ (ss : StmtList) (stage : Stmt),
    StmtList.lastOf? (StmtList.insertAt ss.lengthOf stage ss) = some stage
  | .nil, stage => rfl
  | .cons t ts, stage => by
    have ih := lastOf_insertAt_length ts stage
    cases h : StmtList.insertAt ts.lengthOf stage ts with
    | nil => exact absurd h (insertAt_ne_nil _ _ _)
    | cons a as =>
      have h2 : StmtList.insertAt (StmtList.cons t ts).lengthOf stage (.cons t ts)
          = .cons t (.cons a as) := by
        simp [StmtList.lengthOf, StmtList.insertAt, h]
      rw [h2, StmtList.lastOf?]
      rw [h] at ih
      exact ih

/-- C4 (amended). When the detector finds no related blocks at all, the
insertion site defaults to the scope root, and the stage lands at the end
of the root's body: at index size for a sequence body, and at position 1
(not 0) for a non-sequence body, which wraps the body into a two-element
sequence with the stage appended after it. -/
theorem detect_no_related_appends_at_end (scopeBlk : Blk)
    (deps : List (Nat × Nat × Bool)) (blockId : Nat) (consumers : List Nat)
    (h : CacheLocDetector.relatedOf deps blockId consumers = []) :
    ∃ pos,
      CacheLocDetector.Detect scopeBlk deps blockId consumers
        = (some (.blk scopeBlk.bid), some pos)
      ∧ (∀ ss, scopeBlk.body = .seq ss → pos = ss.lengthOf)
      ∧ ((∀ ss, scopeBlk.body ≠ .seq ss) → pos = 1)
      ∧ ∀ stage, seqLast? (InsertCacheStage scopeBlk.body pos stage) = some stage := by
  refine ⟨match scopeBlk.body with | .seq ss => ss.lengthOf | _ => 1, ?_, ?_, ?_, ?_⟩
  · simp [CacheLocDetector.Detect, h]
  · intro ss hss
    rw [hss]
  · intro hns
    cases hb : scopeBlk.body with
    | seq ss => exact absurd hb (hns ss)
    | bufferStore a b c => rfl
    | forLoop a b c d e => rfl
    | blockRealize a b c => rfl
  · intro stage
    cases hb : scopeBlk.body with
    | seq ss => exact lastOf_insertAt_length ss stage
    | bufferStore a b c => rfl
    | forLoop a b c d e => rfl
    | blockRealize a b c => rfl

/-- Witness for detect_no_related_appends_at_end at a concrete scope with
a non-sequence root body and no dependencies. -/
theorem detect_no_related_appends_at_end_witness :
    ∃ pos,
      CacheLocDetector.Detect
          (.mk 0 [] [] [] [] "root"
            (.bufferStore ⟨3, "A", [.int 16], ⟨30⟩, "global"⟩ (.int 0) []) [])
          [] 7 []
        = (some (.blk 0), some pos)
      ∧ (∀ ss, Blk.body (.mk 0 [] [] [] [] "root"
            (.bufferStore ⟨3, "A", [.int 16], ⟨30⟩, "global"⟩ (.int 0) []) [])
          = .seq ss → pos = ss.lengthOf)
      ∧ ((∀ ss, Blk.body (.mk 0 [] [] [] [] "root"
            (.bufferStore ⟨3, "A", [.int 16], ⟨30⟩, "global"⟩ (.int 0) []) [])
          ≠ .seq ss) → pos = 1)
      ∧ ∀ stage, seqLast? (InsertCacheStage
          (Blk.body (.mk 0 [] [] [] [] "root"
            (.bufferStore ⟨3, "A", [.int 16], ⟨30⟩, "global"⟩ (.int 0) []) []))
          pos stage) = some stage :=
  detect_no_related_appends_at_end _ [] 7 [] rfl

/-- C4 counterexample: at a scope root whose body is a single store (not
a sequence) and with no related blocks, the detected insertion position
is 1, not 0 as the claim states. -/
theorem detect_no_related_nonseq_pos_cex :
    (CacheLocDetector.Detect
        (.mk 0 [] [] [] [] "root"
          (.bufferStore ⟨3, "A", [.int 16], ⟨30⟩, "global"⟩ (.int 0) []) [])
        [] 7 []).2 = some 1
    ∧ (1 : Nat) ≠ 0 :=
  ⟨rfl, by decide⟩

namespace RelaxModel

theorem subI_refl (A : Ival) : subI A A := ⟨le_refl _, le_refl _⟩

theorem memI_mono {x : Int} {A B : Ival} (h : subI A B) (hx : memI x A) : memI x B :=
  ⟨le_trans h.1 hx.1, le_trans hx.2 h.2⟩

theorem addI_mono {A A' B B' : Ival} (h1 : subI A A') (h2 : subI B B') :
    subI (addI A B) (addI A' B') :=
  ⟨add_le_add h1.1 h2.1, add_le_add h1.2 h2.2⟩

theorem scaleI_mono (c : Int) {A B : Ival} (h : subI A B) :
    subI (scaleI c A) (scaleI c B) := by
  unfold scaleI
  by_cases hc : 0 ≤ c
  · rw [if_pos hc, if_pos hc]
    exact ⟨mul_le_mul_of_nonneg_left h.1 hc, mul_le_mul_of_nonneg_left h.2 hc⟩
  · rw [if_neg hc, if_neg hc]
    have hc' : c ≤ 0 := le_of_lt (not_le.mp hc)
    exact ⟨mul_le_mul_of_nonpos_left h.2 hc', mul_le_mul_of_nonpos_left h.1 hc'⟩

theorem evalBound_mono (cs : List (Int × Nat)) (c : Int) {dom1 dom2 : Nat → Ival}
    (h : ∀ p, subI (dom1 p) (dom2 p)) :
    subI (evalBound cs c dom1) (evalBound cs c dom2) := by
  induction cs with
  | nil => exact subI_refl _
  | cons p rest ih => exact addI_mono (scaleI_mono p.1 (h p.2)) ih

theorem relaxDom_mono (loops : List Ival) (low1 high1 low2 high2 : Nat)
    (env : Nat → Int) (h12 : low1 ≤ low2) (h21 : high2 ≤ high1)
    (hlen : high1 ≤ loops.length)
    (henv : ∀ p, p < loops.length → memI (env p) (loops.getD p (pointI 0))) :
    ∀ p, subI (relaxDom loops low2 high2 env p) (relaxDom loops low1 high1 env p) := by
  intro p
  unfold relaxDom
  by_cases h2 : low2 ≤ p ∧ p < high2
  · have h1 : low1 ≤ p ∧ p < high1 := ⟨le_trans h12 h2.1, lt_of_lt_of_le h2.2 h21⟩
    rw [if_pos h2, if_pos h1]
    exact subI_refl _
  · rw [if_neg h2]
    by_cases h1 : low1 ≤ p ∧ p < high1
    · rw [if_pos h1]
      have hm := henv p (lt_of_lt_of_le h1.2 hlen)
      exact ⟨hm.1, hm.2⟩
    · rw [if_neg h1]
      exact subI_refl _

theorem coverRange_mono {A B : Ival} (e : Int) (h : subI A B) :
    subI (coverRange A e) (coverRange B e) :=
  ⟨max_le_max h.1 (le_refl 0), min_le_min h.2 (le_refl _)⟩

theorem coverRange_mem {x : Int} {I : Ival} {e : Int}
    (h : memI x (coverRange I e)) : 0 ≤ x ∧ x < e := by
  obtain ⟨h1, h2⟩ := h
  refine ⟨le_trans (le_max_right _ _) h1, ?_⟩
  have := le_trans h2 (min_le_right _ _)
  omega

/-- C5. Every region returned by RelaxBufferRegion is clipped to the
buffer's extent: in every dimension, every point of the relaxed range
lies in [0, shape_i). Settled against the spec-modelled interval
analysis and cover, which are external to this source file. -/
theorem relaxBufferRegion_clipped (dims : List (List (Int × Nat) × Int))
    (shape : List Int) (loops : List Ival) (low high : Nat) (env : Nat → Int) :
    ∀ i x, memI x ((RelaxBufferRegion dims shape loops low high env).getD i ⟨1, 0⟩) →
      0 ≤ x ∧ x < shape.getD i 1 := by
  intro i x
  induction dims generalizing shape i with
  | nil =>
    intro hmem
    obtain ⟨ha, hb⟩ := hmem
    simp [RelaxBufferRegion] at ha hb
    omega
  | cons d ds ih =>
    cases shape with
    | nil =>
      intro hmem
      obtain ⟨ha, hb⟩ := hmem
      simp [RelaxBufferRegion] at ha hb
      omega
    | cons e es =>
      cases i with
      | zero =>
        intro hmem
        exact coverRange_mem hmem
      | succ j =>
        intro hmem
        exact ih es j hmem

/-- Witness for relaxBufferRegion_clipped at a concrete single-dimension
relaxation whose analyzed interval overflows the buffer extent. -/
theorem relaxBufferRegion_clipped_witness :
    0 ≤ (3 : Int) ∧ (3 : Int) < [(4 : Int)].getD 0 1 :=
  relaxBufferRegion_clipped [([(1, 0)], 2)] [4] [⟨0, 5⟩] 0 1 (fun _ => 0) 0 3
    (by decide)

/-- C9. Region relaxation is monotone in the enclosing sref-tree
interval: widening [low, high) (relaxing more of the enclosing loops)
never shrinks the computed region, in any dimension, for any valuation of
the unrelaxed variables that respects the loop domains. Settled against
the spec-modelled interval analysis, which is external to this source
file. -/
theorem relaxBufferRegion_monotone (dims : List (List (Int × Nat) × Int))
    (shape : List Int) (loops : List Ival) (env : Nat → Int)
    (low1 high1 low2 high2 : Nat)
    (h12 : low1 ≤ low2) (h21 : high2 ≤ high1) (hlen : high1 ≤ loops.length)
    (henv : ∀ p, p < loops.length → memI (env p) (loops.getD p (pointI 0))) :
    ∀ i x, memI x ((RelaxBufferRegion dims shape loops low2 high2 env).getD i ⟨1, 0⟩) →
      memI x ((RelaxBufferRegion dims shape loops low1 high1 env).getD i ⟨1, 0⟩) := by
  have hdom := relaxDom_mono loops low1 high1 low2 high2 env h12 h21 hlen henv
  intro i x
  induction dims generalizing shape i with
  | nil => exact fun h => h
  | cons d ds ih =>
    cases shape with
    | nil => exact fun h => h
    | cons e es =>
      cases i with
      | zero =>
        intro hmem
        exact memI_mono (coverRange_mono e (evalBound_mono d.1 d.2 hdom)) hmem
      | succ j =>
        intro hmem
        exact ih es j hmem

/-- Witness for relaxBufferRegion_monotone: the point computed by the
narrow relaxation (relaxing nothing) is contained in the interval of the
wide relaxation (relaxing the single loop). -/
theorem relaxBufferRegion_monotone_witness :
    memI 1 ((RelaxBufferRegion [([(1, 0)], 0)] [10] [⟨0, 3⟩] 0 0 (fun _ => 1)).getD 0 ⟨1, 0⟩)
    ∧ memI 1 ((RelaxBufferRegion [([(1, 0)], 0)] [10] [⟨0, 3⟩] 0 1 (fun _ => 1)).getD 0 ⟨1, 0⟩) := by
  refine ⟨by decide, ?_⟩
  refine relaxBufferRegion_monotone [([(1, 0)], 0)] [10] [⟨0, 3⟩] (fun _ => 1)
    0 1 0 0 (by decide) (by decide) (by decide) ?_ 0 1 (by decide)
  intro p hp
  cases p with
  | zero => decide
  | succ n =>
    simp only [List.length_cons, List.length_nil] at hp
    omega

end RelaxModel

theorem seqHead_insert_zero (s stage : Stmt) :
    seqHead? (InsertCacheStage s 0 stage) = some stage := by
  cases s with
  | seq ss => rfl
  | bufferStore a b c => rfl
  | forLoop a b c d e => rfl
  | blockRealize a b c => rfl

theorem crVisitBlk_root_body (info : CacheStageInfo) (b : Blk)
    (hloc : info.loc_sref = some (.blk b.bid)) (hpos : info.loc_pos = some 0) :
    ((CacheReadRewriter.visitBlk info b.bid false b).1).body
      = InsertCacheStage
          (CacheReadRewriter.visitStmt info b.bid
            (info.consumer_blocks.isEmpty || info.consumer_blocks.contains b.bid) b.body).1
          0 info.cache_stage := by
  cases b with
  | mk bid ivs rds wrs mbs name body allocs =>
    simp only [Blk.bid] at hloc
    simp only [Blk.bid, Blk.body, CacheReadRewriter.visitBlk, hloc, hpos]
    simp [Blk.body]

/-- C6. For a CacheRead whose read buffer has a producer block in scope,
the rewriter leaves the producer block (any non-root block whose write
list contains the read buffer) untouched: the visit returns the identical
block without descending into its body. -/
theorem cacheRead_producer_unchanged (info : CacheStageInfo) (scopeId : Nat)
    (consumes : Bool) (b : Blk) (h1 : b.bid ≠ scopeId)
    (h2 : (GetBufferRegionFromBuffer b.writes info.read_buffer).isSome = true) :
    (CacheReadRewriter.visitBlk info scopeId consumes b).1 = b := by
  cases b with
  | mk bid ivs rds wrs mbs name body allocs =>
    simp only [Blk.bid] at h1
    simp only [Blk.writes] at h2
    simp only [CacheReadRewriter.visitBlk]
    rw [if_pos ⟨h1, h2⟩]

/-- Witness for cacheRead_producer_unchanged at a concrete producer. -/
theorem cacheRead_producer_unchanged_witness :
    (CacheReadRewriter.visitBlk infoCR 0 false producerBlk).1 = producerBlk :=
  cacheRead_producer_unchanged infoCR 0 false producerBlk (by decide) rfl

/-- C2. When two or more blocks write the target buffer in scope, both
CacheRead and CacheWrite fail with NotSingleWriteBlock, the error's
locations of interest are exactly the writer set, and (the execution
stopping with the error before the Replace step) no mutation is
committed. -/
theorem cache_read_write_not_single_writer (scope : ScopeInfo) (buf : Buffer)
    (writers : List Nat) (storage_scope : String) (consumers : List Nat)
    (blockId freshId freshData fresh newBid forBase : Nat)
    (relaxOracle : Nat → Option SRefId → BufferRegion)
    (hrc : scope.regionCoverOK = true)
    (hw : writersLookup scope buf.id = some writers)
    (hlen : 2 ≤ writers.length) :
    CacheReadExec scope buf storage_scope consumers freshId freshData fresh newBid
        forBase relaxOracle
      = .error (.notSingleWriteBlock buf.id writers)
    ∧ CacheWriteExec scope blockId buf storage_scope freshId freshData fresh newBid
        forBase relaxOracle
      = .error (.notSingleWriteBlock buf.id writers)
    ∧ locationsOfInterest (.notSingleWriteBlock buf.id writers) = writers := by
  have hg : GetOnlyWriteBlock scope buf = .error (.notSingleWriteBlock buf.id writers) := by
    unfold GetOnlyWriteBlock
    rw [hw]
    cases writers with
    | nil => exact absurd hlen (by simp)
    | cons a t =>
      cases t with
      | nil => exact absurd hlen (by simp)
      | cons b r => rfl
  refine ⟨?_, ?_, rfl⟩
  · simp [CacheReadExec, CacheReadPlan, CheckRegionCover, hrc, hg]
  · simp [CacheWriteExec, CacheWritePlan, hg]

/-- Witness for cache_read_write_not_single_writer at a concrete scope in
which blocks 1 and 2 both write bufA. -/
theorem cache_read_write_not_single_writer_witness :
    CacheReadExec scopeTwoWriters bufA "local" [] 4 31 100 50 200
        (fun _ _ => FullRegion bufA)
      = .error (.notSingleWriteBlock bufA.id [1, 2])
    ∧ CacheWriteExec scopeTwoWriters 1 bufA "local" 4 31 100 50 200
        (fun _ _ => FullRegion bufA)
      = .error (.notSingleWriteBlock bufA.id [1, 2])
    ∧ locationsOfInterest (.notSingleWriteBlock bufA.id [1, 2]) = [1, 2] :=
  cache_read_write_not_single_writer scopeTwoWriters bufA [1, 2] "local" [] 1 4 31 100
    50 200 (fun _ _ => FullRegion bufA) rfl rfl (by decide)

/-- C8. CacheRead of a buffer with no writer block in scope places the
copy stage at position 0 of the scope root's body: the plan records the
root as the site with position 0, and the rewritten root's body is a
sequence whose first statement is the synthesized stage. -/
theorem cacheRead_no_writer_inserts_front (scope : ScopeInfo) (buf : Buffer)
    (storage_scope : String) (consumers : List Nat)
    (freshId freshData fresh newBid forBase : Nat)
    (relaxOracle : Nat → Option SRefId → BufferRegion)
    (hrc : scope.regionCoverOK = true)
    (hw : writersLookup scope buf.id = none) :
    ∃ root cblk info2,
      CacheReadExec scope buf storage_scope consumers freshId freshData fresh newBid
          forBase relaxOracle
        = .ok (root, cblk, info2)
      ∧ info2.loc_pos = some 0
      ∧ info2.loc_sref = some (.blk scope.scopeBlk.bid)
      ∧ seqHead? root.body = some info2.cache_stage := by
  have hplan : CacheReadPlan scope buf storage_scope consumers freshId freshData
      relaxOracle
      = .ok (⟨buf, WithScope buf storage_scope freshId freshData,
              WithScope buf storage_scope freshId freshData,
              some (.blk scope.scopeBlk.bid), some 0, .seq .nil, consumers⟩,
             match GetBufferRegionFromBuffer scope.scopeBlk.reads buf with
             | some r => r
             | none => FullRegion buf) := by
    unfold CacheReadPlan CheckRegionCover GetOnlyWriteBlock
    rw [hrc, hw]
    rfl
  have hexec : CacheReadExec scope buf storage_scope consumers freshId freshData fresh
      newBid forBase relaxOracle
      = .ok (CacheReadRewriter.Rewrite
              ⟨buf, WithScope buf storage_scope freshId freshData,
               WithScope buf storage_scope freshId freshData,
               some (.blk scope.scopeBlk.bid), some 0,
               (MakeCacheStage
                 (match GetBufferRegionFromBuffer scope.scopeBlk.reads buf with
                  | some r => r
                  | none => FullRegion buf)
                 ⟨buf, WithScope buf storage_scope freshId freshData,
                  WithScope buf storage_scope freshId freshData,
                  some (.blk scope.scopeBlk.bid), some 0, .seq .nil, consumers⟩
                 storage_scope fresh newBid forBase).2, consumers⟩
              scope.scopeBlk,
             (MakeCacheStage
               (match GetBufferRegionFromBuffer scope.scopeBlk.reads buf with
                | some r => r
                | none => FullRegion buf)
               ⟨buf, WithScope buf storage_scope freshId freshData,
                WithScope buf storage_scope freshId freshData,
                some (.blk scope.scopeBlk.bid), some 0, .seq .nil, consumers⟩
               storage_scope fresh newBid forBase).1,
             ⟨buf, WithScope buf storage_scope freshId freshData,
              WithScope buf storage_scope freshId freshData,
              some (.blk scope.scopeBlk.bid), some 0,
              (MakeCacheStage
                (match GetBufferRegionFromBuffer scope.scopeBlk.reads buf with
                 | some r => r
                 | none => FullRegion buf)
                ⟨buf, WithScope buf storage_scope freshId freshData,
                 WithScope buf storage_scope freshId freshData,
                 some (.blk scope.scopeBlk.bid), some 0, .seq .nil, consumers⟩
                storage_scope fresh newBid forBase).2, consumers⟩) := by
    unfold CacheReadExec
    rw [hplan]
  refine ⟨_, _, _, hexec, rfl, rfl, ?_⟩
  have hb := crVisitBlk_root_body
    ⟨buf, WithScope buf storage_scope freshId freshData,
     WithScope buf storage_scope freshId freshData,
     some (.blk scope.scopeBlk.bid), some 0,
     (MakeCacheStage
       (match GetBufferRegionFromBuffer scope.scopeBlk.reads buf with
        | some r => r
        | none => FullRegion buf)
       ⟨buf, WithScope buf storage_scope freshId freshData,
        WithScope buf storage_scope freshId freshData,
        some (.blk scope.scopeBlk.bid), some 0, .seq .nil, consumers⟩
       storage_scope fresh newBid forBase).2, consumers⟩
    scope.scopeBlk rfl rfl
  rw [CacheReadRewriter.Rewrite, hb]
  exact seqHead_insert_zero _ _

/-- Witness for cacheRead_no_writer_inserts_front at a concrete scope
with no writer of bufA. -/
theorem cacheRead_no_writer_inserts_front_witness :
    ∃ root cblk info2,
      CacheReadExec scopeNoWriter bufA "shared" [] 4 31 100 50 200
          (fun _ _ => FullRegion bufA)
        = .ok (root, cblk, info2)
      ∧ info2.loc_pos = some 0
      ∧ info2.loc_sref = some (.blk scopeNoWriter.scopeBlk.bid)
      ∧ seqHead? root.body = some info2.cache_stage :=
  cacheRead_no_writer_inserts_front scopeNoWriter bufA "shared" [] 4 31 100 50 200
    (fun _ _ => FullRegion bufA) rfl rfl

/-- C10. CacheRead of an input buffer (no writer in scope) takes the
cached region from the scope root's declared read region for the buffer
when one exists and otherwise from the buffer's full region, records the
scope root at position 0 as the site, and skips the detection and
relaxation passes entirely: the plan does not depend on the dependency
edges or on the relaxation oracle. -/
theorem cacheRead_input_buffer_region (scope : ScopeInfo) (buf : Buffer)
    (storage_scope : String) (consumers : List Nat) (freshId freshData : Nat)
    (relaxOracle : Nat → Option SRefId → BufferRegion)
    (hrc : scope.regionCoverOK = true)
    (hw : writersLookup scope buf.id = none) :
    CacheReadPlan scope buf storage_scope consumers freshId freshData relaxOracle
      = .ok (⟨buf, WithScope buf storage_scope freshId freshData,
              WithScope buf storage_scope freshId freshData,
              some (.blk scope.scopeBlk.bid), some 0, .seq .nil, consumers⟩,
             (GetBufferRegionFromBuffer scope.scopeBlk.reads buf).getD (FullRegion buf))
    ∧ ∀ (deps2 : List (Nat × Nat × Bool))
        (relaxOracle2 : Nat → Option SRefId → BufferRegion),
        CacheReadPlan ⟨scope.scopeBlk, scope.bufferWriters, deps2, scope.regionCoverOK⟩
            buf storage_scope consumers freshId freshData relaxOracle2
          = CacheReadPlan scope buf storage_scope consumers freshId freshData
              relaxOracle := by
  have key : ∀ (sc : ScopeInfo) (oracle' : Nat → Option SRefId → BufferRegion),
      sc.regionCoverOK = true → writersLookup sc buf.id = none →
      CacheReadPlan sc buf storage_scope consumers freshId freshData oracle'
        = .ok (⟨buf, WithScope buf storage_scope freshId freshData,
                WithScope buf storage_scope freshId freshData,
                some (.blk sc.scopeBlk.bid), some 0, .seq .nil, consumers⟩,
               (GetBufferRegionFromBuffer sc.scopeBlk.reads buf).getD
                 (FullRegion buf)) := by
    intro sc oracle' h1 h2
    unfold CacheReadPlan CheckRegionCover GetOnlyWriteBlock
    rw [h1, h2]
    cases GetBufferRegionFromBuffer sc.scopeBlk.reads buf with
    | none => rfl
    | some r => rfl
  refine ⟨key scope relaxOracle hrc hw, ?_⟩
  intro deps2 oracle2
  rw [key ⟨scope.scopeBlk, scope.bufferWriters, deps2, scope.regionCoverOK⟩ oracle2
    hrc hw, key scope relaxOracle hrc hw]

/-- Witness for cacheRead_input_buffer_region at a concrete scope with
no writer of bufA and no declared root read region, so the full region is
used. -/
theorem cacheRead_input_buffer_region_witness :
    CacheReadPlan scopeNoWriter bufA "shared" [] 4 31 (fun _ _ => FullRegion bufA)
      = .ok (⟨bufA, WithScope bufA "shared" 4 31, WithScope bufA "shared" 4 31,
              some (.blk scopeNoWriter.scopeBlk.bid), some 0, .seq .nil, []⟩,
             (GetBufferRegionFromBuffer scopeNoWriter.scopeBlk.reads bufA).getD
               (FullRegion bufA))
    ∧ ∀ (deps2 : List (Nat × Nat × Bool))
        (relaxOracle2 : Nat → Option SRefId → BufferRegion),
        CacheReadPlan ⟨scopeNoWriter.scopeBlk, scopeNoWriter.bufferWriters, deps2,
              scopeNoWriter.regionCoverOK⟩
            bufA "shared" [] 4 31 relaxOracle2
          = CacheReadPlan scopeNoWriter bufA "shared" [] 4 31
              (fun _ _ => FullRegion bufA) :=
  cacheRead_input_buffer_region scopeNoWriter bufA "shared" [] 4 31
    (fun _ _ => FullRegion bufA) rfl rfl

/-- C7. CacheWrite retargets accesses only inside the writer block's
subtree: any block other than the writer and the scope root that is not
under the writer is returned unchanged (its loads on the original buffer
included), while inside the writer block the store to the written buffer
is redirected to the cache buffer, keeping value and indices (when they
do not otherwise mention the written buffer). -/
theorem cacheWrite_retargets_only_writer_subtree (info : CacheStageInfo)
    (scopeId writerId : Nat) :
    (∀ d : Blk, d.bid ≠ writerId → d.bid ≠ scopeId →
      CacheWriteRewriter.visitBlk info scopeId writerId false d = d)
    ∧ (∀ (c : Blk) (bufB : Buffer) (val : PrimExpr) (idx : List PrimExpr),
        c.bid = writerId → writerId ≠ scopeId →
        c.body = .bufferStore bufB val idx →
        bufB.id = info.write_buffer.id →
        info.loc_sref ≠ some (.blk writerId) →
        CacheWriteRewriter.visitExpr info val = val →
        idx.map (CacheWriteRewriter.visitExpr info) = idx →
        (CacheWriteRewriter.visitBlk info scopeId writerId false c).body
          = .bufferStore info.read_buffer val idx) := by
  constructor
  · intro d h1 h2
    cases d with
    | mk bid ivs rds wrs mbs name body allocs =>
      simp only [Blk.bid] at h1 h2
      simp only [CacheWriteRewriter.visitBlk]
      rw [if_pos ⟨h1, h2, by trivial⟩]
  · intro c bufB val idx hc hws hbody hbuf hloc hval hidx
    cases c with
    | mk bid ivs rds wrs mbs name body allocs =>
      simp only [Blk.bid] at hc
      simp only [Blk.body] at hbody
      subst hbody
      have hloc' : info.loc_sref ≠ some (.blk bid) := by
        rw [hc]
        exact hloc
      have hbs : ¬(bid = scopeId) := by
        intro hh
        apply hws
        rw [← hc]
        exact hh
      simp only [CacheWriteRewriter.visitBlk]
      rw [if_neg (fun h => h.1 hc)]
      simp only [CacheWriteRewriter.visitStmt]
      rw [if_pos hbuf, if_neg hloc', hval, hidx]
      rw [if_neg hbs]
      cases hch : ((ReplaceBufferC wrs info.write_buffer.id info.read_buffer).2
          || (ReplaceBufferC rds info.write_buffer.id info.read_buffer).2
          || (ReplaceBufferC mbs info.write_buffer.id info.read_buffer).2) with
      | true => simp only [hch, if_true, Blk.body]
      | false => simp only [hch, Bool.false_eq_true, if_false, Blk.body]

/-- Witness for cacheWrite_retargets_only_writer_subtree on the concrete
scenario: the outside consumer block D is untouched and the writer block
C's store to bufA is redirected to the cache buffer. -/
theorem cacheWrite_retargets_only_writer_subtree_witness :
    CacheWriteRewriter.visitBlk infoCW 0 1 false outsideBlk = outsideBlk
    ∧ (CacheWriteRewriter.visitBlk infoCW 0 1 false writerBlk).body
        = .bufferStore infoCW.read_buffer (.var ⟨2⟩) [.var ⟨2⟩] :=
  ⟨(cacheWrite_retargets_only_writer_subtree infoCW 0 1).1 outsideBlk (by decide)
      (by decide),
   (cacheWrite_retargets_only_writer_subtree infoCW 0 1).2 writerBlk bufA (.var ⟨2⟩)
      [.var ⟨2⟩] rfl (by decide) rfl rfl (by decide) rfl rfl⟩

theorem peelLoops_buildReIndexLoops (ivs : List IterVar) (k f : Nat) (body : Stmt)
    (h : ∀ a b c d e, body ≠ .forLoop a b c d e) :
    peelLoops (buildReIndexLoops ivs k f body) = (reIndexLoopSpecs ivs k f, body) := by
  induction ivs generalizing k f with
  | nil =>
    cases body with
    | forLoop a b c d e => exact absurd rfl (h a b c d e)
    | bufferStore _ _ _ => rfl
    | seq _ => rfl
    | blockRealize _ _ _ => rfl
  | cons iv rest ih =>
    simp [buildReIndexLoops, peelLoops, reIndexLoopSpecs, ih (k + 1) (f + 1)]

theorem reIndexLoopSpecs_map (ivs : List IterVar) (k f : Nat) :
    (reIndexLoopSpecs ivs k f).map (fun l => (l.lmin, l.lextent))
      = ivs.map (fun iv => (iv.dom.min, iv.dom.extent)) := by
  induction ivs generalizing k f with
  | nil => rfl
  | cons iv rest ih => simp [reIndexLoopSpecs, ih (k + 1) (f + 1)]

theorem reIndexIters_fst_doms (covered : List Var) (its : List IterVar) (k : Nat) :
    ((reIndexIters covered its k).1).map (fun iv => (iv.dom.min, iv.dom.extent))
      = (its.filter (fun it => covered.contains it.var)).map
          (fun it => (it.dom.min, it.dom.extent)) := by
  induction its generalizing k with
  | nil => rfl
  | cons it rest ih =>
    by_cases hm : it.var ∈ covered
    · simp [reIndexIters, List.filter_cons, hm, ih (k + 1)]
    · simp [reIndexIters, List.filter_cons, hm, ih k]

theorem reIndexIters_fst_length (covered : List Var) (its : List IterVar) (k : Nat) :
    ((reIndexIters covered its k).1).length
      = (its.filter (fun it => covered.contains it.var)).length := by
  have h := congrArg List.length (reIndexIters_fst_doms covered its k)
  simpa using h

/-- C3 (amended). For every iteration variable of the block that does
not appear in the access indices being reindexed, the reindex buffer's
shape omits the corresponding dimension, and the synthesized stage
synthesizes no loop and no block iter for it at all (the dimension is
skipped outright, not collapsed to an extent-1 loop): the stage's loops
correspond exactly, with the original domains, to the covered iters. -/
theorem makeReIndexStage_skips_uncovered (block : Blk) (info : CacheStageInfo)
    (original_indices : List PrimExpr) (isWriteIndex : Bool)
    (vbase axbase newBid forBase : Nat) (buffer : Buffer) (freshId freshData : Nat) :
    (peelLoops (MakeReIndexStage block info (coveredOf original_indices)
        original_indices isWriteIndex vbase axbase newBid forBase).2).1.map
        (fun l => (l.lmin, l.lextent))
      = (block.iterVars.filter
          (fun it => (coveredOf original_indices).contains it.var)).map
          (fun it => (it.dom.min, it.dom.extent))
    ∧ (peelLoops (MakeReIndexStage block info (coveredOf original_indices)
        original_indices isWriteIndex vbase axbase newBid forBase).2).1.length
      = (block.iterVars.filter
          (fun it => (coveredOf original_indices).contains it.var)).length
    ∧ (MakeReIndexStage block info (coveredOf original_indices) original_indices
        isWriteIndex vbase axbase newBid forBase).1.iterVars.length
      = (block.iterVars.filter
          (fun it => (coveredOf original_indices).contains it.var)).length
    ∧ (CreateReindexBuffer buffer block.iterVars (coveredOf original_indices)
        freshId freshData).shape
      = (block.iterVars.filter
          (fun it => (coveredOf original_indices).contains it.var)).map
          (fun it => PrimExpr.add it.dom.min it.dom.extent) := by
  have hpeel : peelLoops (MakeReIndexStage block info (coveredOf original_indices)
      original_indices isWriteIndex vbase axbase newBid forBase).2
      = (reIndexLoopSpecs (reIndexIters (coveredOf original_indices)
          block.iterVars vbase).1 axbase forBase,
         Stmt.blockRealize
           (reIndexIterValues (reIndexIters (coveredOf original_indices)
             block.iterVars vbase).1 axbase)
           trueExpr
           (MakeReIndexStage block info (coveredOf original_indices)
             original_indices isWriteIndex vbase axbase newBid forBase).1) :=
    peelLoops_buildReIndexLoops _ _ _ _ (fun a b c d e h => by simp at h)
  refine ⟨?_, ?_, ?_, rfl⟩
  · rw [hpeel]
    rw [reIndexLoopSpecs_map]
    exact reIndexIters_fst_doms _ _ _
  · rw [hpeel]
    have h1 := congrArg List.length (reIndexLoopSpecs_map
      (reIndexIters (coveredOf original_indices) block.iterVars vbase).1 axbase forBase)
    simp only [List.length_map] at h1
    rw [h1]
    exact reIndexIters_fst_length _ _ _
  · exact reIndexIters_fst_length _ _ _

/-- C3 counterexample: for the concrete block with iters i and j and
write index [i], the synthesized write-reindex stage has a single loop of
extent 4 (for i) while the block has two iters: there is no extent-1 loop
for the uncovered iter j, contradicting the claim that the loop for j has
extent 1 (the buffer shape does omit j's dimension, as claimed). -/
theorem reindex_uncovered_loop_extent_cex :
    (peelLoops (MakeReIndexStage reIdxBlk infoRI (coveredOf [.var ⟨1⟩]) [.var ⟨1⟩]
        true 50 60 70 80).2).1.length = 1
    ∧ reIdxBlk.iterVars.length = 2
    ∧ loopExtents (MakeReIndexStage reIdxBlk infoRI (coveredOf [.var ⟨1⟩]) [.var ⟨1⟩]
        true 50 60 70 80).2 = [PrimExpr.int 4]
    ∧ PrimExpr.int 4 ≠ PrimExpr.int 1
    ∧ bufAReindex.shape.length = 1 := by
  refine ⟨rfl, rfl, rfl, ?_, rfl⟩
  intro h
  injection h with h2
  exact absurd h2 (by decide)
